import Mathlib

/-!
Shallow embedding of the `uu.record` package (an ordered, UUID-keyed record
store with schema-driven secondary indexing) and proofs about the claims of
its specification.

The embedding follows the Python 2 source:
  * `src/uu/record/base.py` (`Record`, `RecordContainer`)
  * `src/uu/record/query/schemainfo.py` (`FieldInfo`, `SchemaInfo`,
    `field_index_types`, `field_index_name`)
  * `src/uu/record/query/catalog.py` (`RecordCatalog.bind`, `.unbind`)

Python data values copied onto records are modelled by the inductive `Value`;
Python mappings (`dict`/`PersistentDict`) are modelled as association lists
iterated in list order (a CPython dict iterates its keys in some fixed
arbitrary order; all properties proved here are insensitive to that order, and
concrete counterexamples fix one order).  Exceptions are modelled explicitly:
mutating operations return the state reached at the moment an exception
propagates, paired with an optional `PyErr`, because CPython exceptions do not
roll back prior in-place mutations.
-/

namespace UURecord

/-- A Python value, as far as the copied record data is concerned.
`vfunc` stands for any value of a type outside the container whitelists
(functions, arbitrary instances, ...). `vlist` models every Python type in
`SEQUENCE_WHITELIST` (`list`, `tuple`, `set`, `frozenset`, `PersistentList`)
and `vdict` every type in `MAPPING_WHITELIST` (`dict`, `PersistentDict`).
Type objects themselves (such as `int` or `str`) are not representable; no
claim exercises data containing type objects. -/
inductive Value where
  | vstr (s : String)
  | vint (n : Int)
  | vbool (b : Bool)
  | vnone
  | vlist (elems : List Value)
  | vdict (pairs : List (String × Value))
  | vfunc (tag : String)
deriving Repr

mutual

/-- Python `==`/`!=` on `Value` (used by `value != existing_value` in
`RecordContainer._populate_record`).  Booleans compare equal to the integers
0/1 as in Python; values of different kinds otherwise compare unequal.
Python dict equality is key-set based and order-insensitive; the pairwise
comparison here agrees with it on equal key orders, and no reachable code
path of this development compares two dicts (a dict-valued datum makes
`_type_whitelist_validation` raise before any comparison). -/
def pyEq : Value → Value → Bool
  | .vstr a, .vstr b => a == b
  | .vint a, .vint b => a == b
  | .vint a, .vbool b => a == (if b then (1 : Int) else 0)
  | .vbool a, .vint b => (if a then (1 : Int) else 0) == b
  | .vbool a, .vbool b => a == b
  | .vnone, .vnone => true
  | .vlist a, .vlist b => pyEqL a b
  | .vdict a, .vdict b => pyEqP a b
  | .vfunc a, .vfunc b => a == b
  | _, _ => false

/-- Pointwise Python `==` on lists. -/
def pyEqL : List Value → List Value → Bool
  | [], [] => true
  | a :: as, b :: bs => pyEq a b && pyEqL as bs
  | _, _ => false

/-- Pairwise Python `==` on dict items. -/
def pyEqP : List (String × Value) → List (String × Value) → Bool
  | [], [] => true
  | (ka, va) :: as, (kb, vb) :: bs => (ka == kb) && pyEq va vb && pyEqP as bs
  | _, _ => false

end

/-- Python `str(value)`.  The source applies `str()` only to `record_uid`
values, which are strings in every reachable scenario of this development;
the rendering of containers is abbreviated. -/
def pyStr : Value → String
  | .vstr s => s
  | .vint n => toString n
  | .vbool b => if b then "True" else "False"
  | .vnone => "None"
  | .vlist _ => "<list>"
  | .vdict _ => "<dict>"
  | .vfunc t => t

/-- Python `s.startswith(pre)`, stated on character lists so that it
evaluates by reduction. -/
def pyStartswith (s pre : String) : Bool := pre.toList.isPrefixOf s.toList

/-- The head of Python `s.split(sep)`: the characters before the first
separator. -/
def pySplitHead (s : String) (sep : Char) : String :=
  String.mk (s.toList.takeWhile (fun c => c ≠ sep))

/-- The Python exceptions the embedded code can raise. -/
inductive PyErr where
  | valueError (msg : String)
  | keyError (msg : String)
  | attributeError (msg : String)
  | typeError (msg : String)
  | unboundLocalError (varname : String)
  | nameError (varname : String)
deriving Repr, DecidableEq

/-! ### Association lists (Python dict semantics, insertion-ordered) -/

/-- `d.get(key)` / `d[key]` lookup on an association list. -/
def alookup {α : Type} : List (String × α) → String → Option α
  | [], _ => none
  | (k, v) :: rest, key => if k = key then some v else alookup rest key

/-- `d[key] = v`: replace the value at an existing key in place, else append. -/
def aset {α : Type} : List (String × α) → String → α → List (String × α)
  | [], key, v => [(key, v)]
  | (k, w) :: rest, key, v =>
      if k = key then (key, v) :: rest else (k, w) :: aset rest key v

/-- `del d[key]`: remove the first (in a dict: the only) pair at a key. -/
def aerase {α : Type} : List (String × α) → String → List (String × α)
  | [], _ => []
  | (k, w) :: rest, key => if k = key then rest else (k, w) :: aerase rest key

/-- The keys of an association list, in insertion order. -/
def akeys {α : Type} (l : List (String × α)) : List String := l.map Prod.fst

/-! ### Records and containers (`uu/record/base.py`) -/

/-- `Record`: a UUID-bearing entity.  `record_uid` is the stringified UID set
by `Record.__init__`; `attrs` are the dynamic attributes copied onto the
record by `setattr`; `pChanged` models the persistence flag `_p_changed` as
explicitly assigned by `_populate_record` (line `record._p_changed = True`);
the weak `context`/`__parent__` back-reference carries no information used by
any claim and is omitted. -/
structure Record where
  record_uid : String
  attrs : List (String × Value)
  pChanged : Bool
deriving Repr

/-- `setattr(record, key, value)` for a data attribute. -/
def setattrRecord (r : Record) (key : String) (v : Value) : Record :=
  { r with attrs := aset r.attrs key v }

/-- `RecordContainer` state: `entries` is the `_entries` mapping
(UID → record), `order` the `_order` key list.  `record_uid` is the dynamic
attribute that `_populate_record` assigns on the *container* via its stray
`self.record_uid = str(value)` line; a fresh container has no such attribute
(`none`).  Class-level attributes and methods of the Python object are not
data and are outside the model; no data key used in this development collides
with one of their names. -/
structure Container where
  entries : List (String × Record)
  order : List String
  record_uid : Option String
deriving Repr

/-- `RecordContainer()`: a fresh, empty container. -/
def emptyContainer : Container := { entries := [], order := [], record_uid := none }

/-- `getattr(self, key, None)` on the container, for the data keys reachable
in this development (see `Container`). -/
def containerGetattr (c : Container) (key : String) : Option Value :=
  if key = "record_uid" then c.record_uid.map Value.vstr else none

/-- Lifecycle events fired through `notify(...)`, in firing order. -/
inductive Event where
  | created (uid : String)
  | addedEv (uid : String)
  | removedEv (uid : String)
  | modifiedRecord (uid : String) (changedAttrs : List String)
  | modifiedContainer
deriving Repr, DecidableEq

/-- `RecordContainer._type_whitelist_validation(value)`.

* Scalars: `type(value) in TYPE_WHITELIST` holds for `int`/`str`/`bool`
  (`unicode`, `long`, `float`, dates and `Decimal` behave the same and are
  subsumed by the modelled scalars); `NoneType` and function/instance types
  are not whitelisted, raising `ValueError`.
* Sequences (`SEQUENCE_WHITELIST`): the source tests `v not in
  self.TYPE_WHITELIST` on each *element value* `v`, i.e. it compares the
  element by `==` against the type objects in the whitelist; no representable
  element equals a type object, so every non-empty sequence raises
  `ValueError` while the empty sequence passes.
* Mappings (`MAPPING_WHITELIST`): the source iterates `for k,v in v.items()`
  where the local `v` is read before its first assignment, so CPython raises
  `UnboundLocalError` (not caught by the `except ValueError` in
  `_populate_record`). -/
def typeWhitelistValidation : Value → Except PyErr Unit
  | .vdict _ => .error (.unboundLocalError "v")
  | .vlist [] => .ok ()
  | .vlist (_ :: _) => .error (.valueError "Unsupported sequence value type")
  | .vnone => .error (.valueError "Unsupported data type")
  | .vfunc _ => .error (.valueError "Unsupported data type")
  | .vstr _ => .ok ()
  | .vint _ => .ok ()
  | .vbool _ => .ok ()

/-- The key/value loop of `RecordContainer._populate_record`, accumulating the
changelog.  Note two aspects taken verbatim from the source: the
`record_uid` branch assigns `self.record_uid` (the *container*), and the
comparison reads `existing_value = getattr(self, key, None)` off the
*container*, while `setattr(record, key, value)` writes to the record. -/
def populateLoop (c : Container) (r : Record) (chlog : List String) :
    List (String × Value) → Container × Record × List String × Option PyErr
  | [] => (c, r, chlog, none)
  | (key, value) :: rest =>
    if pyStartswith key "_" then populateLoop c r chlog rest
    else if key = "record_uid" then
      populateLoop { c with record_uid := some (pyStr value) } r chlog rest
    else
      match typeWhitelistValidation value with
      | .error (.valueError _) => populateLoop c r chlog rest
      | .error e => (c, r, chlog, some e)
      | .ok () =>
        let existing := (containerGetattr c key).getD .vnone
        if pyEq value existing then populateLoop c r chlog rest
        else populateLoop c (setattrRecord r key value) (chlog ++ [key]) rest

/-- `RecordContainer._populate_record(record, data)`: copy data onto the
record, then fire one `ObjectModifiedEvent(record, *changelog)` when the
changelog is non-empty (also setting `record._p_changed = True`). -/
def populateRecord (c : Container) (r : Record) (data : List (String × Value)) :
    Container × Record × List Event × Option PyErr :=
  let (c1, r1, chlog, err) := populateLoop c r [] data
  match err with
  | some e => (c1, r1, [], some e)
  | none =>
      if chlog.isEmpty then (c1, r1, [], none)
      else (c1, { r1 with pChanged := true },
            [.modifiedRecord r1.record_uid chlog], none)

/-- `RecordContainer.create(data)`: build a record bound to this container
(UID from `data['record_uid']` or the supplied fresh UUID), populate it from
a non-empty mapping, then fire `ObjectCreatedEvent`.  Does not touch
`entries`/`order`.  A propagating exception from `_populate_record` escapes
before the created event. -/
def create (c : Container) (freshUid : String) (data : Option (List (String × Value))) :
    Container × Option Record × List Event × Option PyErr :=
  let d := data.getD []
  let uid := match alookup d "record_uid" with
             | some v => pyStr v
             | none => freshUid
  let r0 : Record := { record_uid := uid, attrs := [], pChanged := false }
  if d.isEmpty then (c, some r0, [.created uid], none)
  else
    let (c1, r1, evs, err) := populateRecord c r0 d
    match err with
    | some e => (c1, none, evs, some e)
    | none => (c1, some r1, evs ++ [.created uid], none)

/-- `RecordContainer.add(record)`: store under `str(record.record_uid)`;
append the UID to `order` only when absent; raise `ValueError` on an empty
UID before any mutation; fire `ObjectAddedEvent`. -/
def add (c : Container) (r : Record) : Container × List Event × Option PyErr :=
  let uid := r.record_uid
  if uid = "" then (c, [], some (.valueError "record has empty UUID"))
  else
    let entries1 := aset c.entries uid r
    let order1 := if uid ∈ c.order then c.order else c.order ++ [uid]
    ({ c with entries := entries1, order := order1 }, [.addedEv uid], none)

/-- `RecordContainer.__delitem__` on a string UID: validate the 36-character
shape, require containment, remove the first occurrence from `order`, delete
from `entries`, fire `ObjectRemovedEvent`. -/
def delItemUid (c : Container) (uid : String) : Container × List Event × Option PyErr :=
  if ¬ uid.length = 36 then
    (c, [], some (.valueError "record neither record object nor UUID"))
  else if (alookup c.entries uid).isNone then
    (c, [], some (.valueError "record not found contained within"))
  else
    ({ c with entries := aerase c.entries uid, order := c.order.erase uid },
     [.removedEv uid], none)

/-- `RecordContainer.keys()` returns the order tuple. -/
def keysC (c : Container) : List String := c.order

/-- `RecordContainer.__len__` is the length of `_order`. -/
def containerLen (c : Container) : Nat := c.order.length

/-- `RecordContainer.update(data, suppress_notify)` for mapping data (the
`IRecord`-object form funnels through `_filtered_data` into the same mapping
path and is not needed by any claim).  A missing or `None` UID raises
`ValueError` before any mutation; an existing entry is populated in place;
otherwise the record is created and added.  The consolidated
container-level modified event fires when not suppressed and the record's
`_p_changed` is set. -/
def updateWithUid (c : Container) (freshUid : String)
    (data : List (String × Value)) (suppressNotify : Bool) (uid : String) :
    Container × Option Record × List Event × Option PyErr :=
  match alookup c.entries uid with
  | some r =>
    let (c1, r1, evs, err) := populateRecord c r data
    let c2 := { c1 with entries := aset c1.entries uid r1 }
    match err with
    | some e => (c2, none, evs, some e)
    | none =>
      if !suppressNotify && r1.pChanged then
        (c2, some r1, evs ++ [.modifiedContainer], none)
      else (c2, some r1, evs, none)
  | none =>
    let (c1, ro, evs, err) := create c freshUid (some data)
    match err, ro with
    | some e, _ => (c1, none, evs, some e)
    | none, none => (c1, none, evs, none)
    | none, some r =>
      let (c2, evs2, err2) := add c1 r
      match err2 with
      | some e => (c2, none, evs ++ evs2, some e)
      | none =>
        if !suppressNotify && r.pChanged then
          (c2, some r, evs ++ evs2 ++ [.modifiedContainer], none)
        else (c2, some r, evs ++ evs2, none)

/-- Python `value is None`. -/
def isVNone : Value → Bool
  | .vnone => true
  | _ => false

/-- The dispatch of `update`: `uid = data.get('record_uid', None)` followed
by `if uid is None: raise ValueError(...)` — a missing key and an explicit
`None` value are indistinguishable here — then `uid = str(uid)` and the body
`updateWithUid`. -/
def update (c : Container) (freshUid : String) (data : List (String × Value))
    (suppressNotify : Bool) :
    Container × Option Record × List Event × Option PyErr :=
  match alookup data "record_uid" with
  | none => (c, none, [], some (.valueError "empty record UID on update"))
  | some v =>
    if isVNone v then (c, none, [], some (.valueError "empty record UID on update"))
    else updateWithUid c freshUid data suppressNotify (pyStr v)

/-! ### `RecordContainer.update_all` -/

/-- The input shapes of `update_all`.  `text parsed` stands for a `str`
argument together with the result of `json.loads` on it (JSON parsing itself
is library code outside this repository); `pyObj` is a plain Python sequence
of mappings (the `isinstance(data, basestring)` test is false). -/
inductive UAData where
  | text (parsed : Value)
  | pyObj (entries : List (List (String × Value)))

/-- The `_keynorm` pass: each element of the normalized payload must be a
mapping (`o.items()`); a non-mapping element raises `AttributeError`.  JSON
object keys are already strings, so `str(k)` is the identity here. -/
def asDicts : List Value → Except PyErr (List (List (String × Value)))
  | [] => .ok []
  | .vdict d :: rest => (asDicts rest).map (d :: ·)
  | _ :: _ => .error (.attributeError "items")

/-- Payload normalization inside the `isinstance(data, basestring)` branch of
`update_all`: a dict with a list-valued `entries` key is a wrapper (its
metadata goes through `_process_container_metadata`, which returns `False` in
this class); any other dict is a singular record wrapped in a list; a list is
taken as is.  The returned flag is the initial `_modified` value.  Payloads
that are neither objects nor arrays fail when iterated. -/
def uaNormalize : Value → Except PyErr (List (List (String × Value)) × Bool)
  | .vdict d =>
    match alookup d "entries" with
    | some (.vlist es) => (asDicts es).map (·, false)
    | _ => .ok ([d], false)
  | .vlist es => (asDicts es).map (·, false)
  | _ => .error (.typeError "payload is not iterable as records")

/-- `uids = [str(o['record_uid']) for o in data]`: raises `KeyError` when an
entry lacks the key (before any per-entry update runs). -/
def extractUids : List (List (String × Value)) → Except PyErr (List String)
  | [] => .ok []
  | e :: rest =>
    match alookup e "record_uid" with
    | none => .error (.keyError "record_uid")
    | some v => (extractUids rest).map (pyStr v :: ·)

/-- The per-entry loop of `update_all`: check `'record_uid' in entry_data`,
call `update(entry_data, suppress_notify=True)`, and accumulate the
`_modified` flag from each record's `_p_changed`.  Returns the remaining
fresh-UID stream, the flag, the events fired so far, and the state reached
when an exception propagates. -/
def uaLoop (c : Container) (fresh : List String) (m : Bool) :
    List (List (String × Value)) →
    Container × List String × Bool × List Event × Option PyErr
  | [] => (c, fresh, m, [], none)
  | e :: rest =>
    if (alookup e "record_uid").isNone then
      (c, fresh, m, [], some (.valueError "record missing UID"))
    else
      let f := fresh.headD "unused-fresh-uid"
      let (c1, ro, evs, err) := update c f e true
      match err with
      | some er => (c1, fresh.tail, m, evs, some er)
      | none =>
        let m1 := m || (match ro with | some r => r.pChanged | none => false)
        let (c2, fresh2, m2, evs2, err2) := uaLoop c1 fresh.tail m1 rest
        (c2, fresh2, m2, evs ++ evs2, err2)

/-- `for deluid in remove_uids: del(self[deluid])`. -/
def delMany (c : Container) : List String → Container × List Event × Option PyErr
  | [] => (c, [], none)
  | u :: rest =>
    let (c1, evs, err) := delItemUid c u
    match err with
    | some e => (c1, evs, some e)
    | none =>
      let (c2, evs2, err2) := delMany c1 rest
      (c2, evs ++ evs2, err2)

/-- The tail of `update_all` shared by the serialized branch: extract `uids`,
run the per-entry loop, delete `set(self.keys()) - set(uids)` (a Python set;
iterated here in first-occurrence key order — the deletions of distinct UIDs
commute), replace `_order` by the incoming UID list verbatim, then fire one
consolidated container-level modified event if `data and _modified`. -/
def uaCore (c : Container) (fresh : List String) (m0 : Bool)
    (es : List (List (String × Value))) : Container × List Event × Option PyErr :=
  match extractUids es with
  | .error e => (c, [], some e)
  | .ok uids =>
    let (c1, _, m, evs, err) := uaLoop c fresh m0 es
    match err with
    | some e => (c1, evs, some e)
    | none =>
      let removeList := (keysC c1).dedup.filter (fun u => u ∉ uids)
      let (c2, evs2, err2) := delMany c1 removeList
      match err2 with
      | some e => (c2, evs ++ evs2, some e)
      | none =>
        let c3 := { c2 with order := uids }
        if !es.isEmpty && m then (c3, evs ++ evs2 ++ [.modifiedContainer], none)
        else (c3, evs ++ evs2, none)

/-- `RecordContainer.update_all(data)`.  For serialized (string) input, the
payload is normalized and `uaCore` runs.  For a plain Python sequence, the
per-entry loop runs, but the local `uids` was only ever assigned inside the
`isinstance(data, basestring)` branch, so the subsequent
`set(self.keys()) - set(uids)` raises `UnboundLocalError` — after the
per-entry updates have already mutated the container.  (Passing a single
plain mapping iterates its *keys* and fails inside the loop likewise; that
shape adds nothing needed by the claims and is not modelled.) -/
def update_all (c : Container) (fresh : List String) :
    UAData → Container × List Event × Option PyErr
  | .text parsed =>
    match uaNormalize parsed with
    | .error e => (c, [], some e)
    | .ok (es, m0) => uaCore c fresh m0 es
  | .pyObj es =>
    let (c1, _, _, evs, err) := uaLoop c fresh false es
    match err with
    | some e => (c1, evs, some e)
    | none => (c1, evs, some (.unboundLocalError "uids"))

/-! ### Schema metadata (`uu/record/query/schemainfo.py`) -/

/-- The kind of a `zope.schema` field: the concrete field class a schema
declares for a field.  `listOf` covers the collection field classes
(`List`, `Tuple`, `Set`, ...) with their `value_type`. -/
inductive FieldKind where
  | textLine
  | bytesLine
  | text
  | bytes
  | intField
  | boolField
  | listOf (valueType : FieldKind)
deriving Repr, DecidableEq

/-- The interface tag stored as `FieldInfo.fieldtype`:
`field_types(field)[0]`, the most specific `IField` sub-interface the field
instance provides (e.g. `ITextLine` for a `TextLine`, `IList` for a `List`). -/
inductive IfaceTag where
  | ITextLine
  | IBytesLine
  | IText
  | IBytes
  | IInt
  | IBool
  | IList
deriving Repr, DecidableEq

/-- `field_types(field)[0]` for each field kind. -/
def field_types_head : FieldKind → IfaceTag
  | .textLine => .ITextLine
  | .bytesLine => .IBytesLine
  | .text => .IText
  | .bytes => .IBytes
  | .intField => .IInt
  | .boolField => .IBool
  | .listOf _ => .IList

/-- `iface.__name__` of an interface tag. -/
def ifaceName : IfaceTag → String
  | .ITextLine => "ITextLine"
  | .IBytesLine => "IBytesLine"
  | .IText => "IText"
  | .IBytes => "IBytes"
  | .IInt => "IInt"
  | .IBool => "IBool"
  | .IList => "IList"

/-- `isinstance(fieldinfo.fieldtype, ICollection)` as CPython 2 evaluates it.
`fieldinfo.fieldtype` is an *interface object* (an instance of the Python
class `InterfaceClass`); `ICollection` is likewise an interface object, not a
type, and `InterfaceClass` defines no `__instancecheck__`, so `isinstance`
falls back to walking `type(fieldtype).__bases__` (`InterfaceClass` →
`Element`, `Specification`, ...) looking for `ICollection` itself, which it
never finds.  The call therefore returns `False` for every field type —
interface extension would be tested with `fieldtype.extends(ICollection)`
instead. -/
def isinstance_ICollection (_t : IfaceTag) : Bool := false

/-- `zope.schema.IText.providedBy(field.value_type) or
zope.schema.IBytesLine.providedBy(field.value_type)` on a resolved collection
field: `ITextLine` extends `IText`, so single-line and multi-line text and
`BytesLine` all qualify. -/
def valueTypeTextual : FieldKind → Bool
  | .textLine => true
  | .text => true
  | .bytesLine => true
  | _ => false

/-- `field.value_type.__name__` used by `field_index_name` in its (dead)
collection branch. -/
def valueTypeName : FieldKind → String
  | .listOf v => ifaceName (field_types_head v)
  | _ => ""

/-- `FieldInfo`: the metadata snapshot `_load_field_metadata` captures
(`title`/`description` carry no behaviour and are omitted).  `kind` is the
underlying schema field, reachable from a `FieldInfo` by calling it
(`FieldInfo.__call__` resolves the live field via the schema resolver). -/
structure FieldInfo where
  name : String
  fieldtype : IfaceTag
  kind : FieldKind
deriving Repr, DecidableEq

/-- The `idxmap` dictionary lookup in `field_index_types`, with its default
`('field',)`. -/
def idxmapLookup : IfaceTag → List String
  | .ITextLine => ["field", "text"]
  | .IBytesLine => ["field", "text"]
  | .IText => ["text"]
  | .IBytes => []
  | _ => ["field"]

/-- `field_index_types(fieldinfo)`: the keyword branch is guarded by
`isinstance(fieldinfo.fieldtype, ICollection)` (see
`isinstance_ICollection`); when the guard fails or its inner text test
fails, control falls through to the `idxmap` lookup. -/
def field_index_types (fi : FieldInfo) : List String :=
  if isinstance_ICollection fi.fieldtype then
    match fi.kind with
    | .listOf v => if valueTypeTextual v then ["keyword"] else idxmapLookup fi.fieldtype
    | _ => idxmapLookup fi.fieldtype
  else idxmapLookup fi.fieldtype

/-- `field_index_name(idxtype, fieldinfo)`:
`'.'.join((idxtype, fieldtype, fieldinfo.name))` where `fieldtype` is the
resolved `value_type.__name__` for the (dead) collection branch and
`fieldinfo.fieldtype.__name__` otherwise. -/
def field_index_name (idxtype : String) (fi : FieldInfo) : String :=
  let fieldtypeName :=
    if isinstance_ICollection fi.fieldtype then valueTypeName fi.kind
    else ifaceName fi.fieldtype
  String.intercalate "." [idxtype, fieldtypeName, fi.name]

/-- `FieldInfo._add_index_names`: the `indexes` attribute computed at
construction. -/
def fieldInfoIndexes (fi : FieldInfo) : List String :=
  (field_index_types fi).map (fun t => field_index_name t fi)

/-- `FieldInfo(context, field)` for a named schema field. -/
def mkFieldInfo (name : String) (kind : FieldKind) : FieldInfo :=
  { name := name, fieldtype := field_types_head kind, kind := kind }

/-- `SchemaInfo`: resolvable name plus one `FieldInfo` per schema field in
declared order.  `SchemaInfo.__init__` ends with `self.indexes = []`
("initially empty; intended to be set by callers") and nothing in this
repository ever assigns it. -/
structure SchemaInfo where
  name : String
  fields : List FieldInfo
  indexes : List String
deriving Repr, DecidableEq

/-- `SchemaInfo(context, schema)` for a schema given by its resolvable name
and its ordered fields. -/
def mkSchemaInfo (name : String) (schemaFields : List (String × FieldKind)) : SchemaInfo :=
  { name := name
    fields := schemaFields.map (fun p => mkFieldInfo p.1 p.2)
    indexes := [] }

/-! ### `RecordCatalog` (`uu/record/query/catalog.py`) -/

/-- `RecordCatalog` state.  `indexer` maps an index name to the index-class
tag `_add_index` instantiates for it (`'field'`/`'text'`/`'keyword'`; the
repoze index objects themselves are storage-engine collaborators);
`supported` maps schema names to their `SchemaInfo`; `index_owners` maps an
index name to the list of schema names recorded as its owners.  The
`mapper` (UUID/docid `DocumentMap`) is touched by no implemented code path. -/
structure RecordCatalog where
  indexer : List (String × String)
  supported : List (String × SchemaInfo)
  index_owners : List (String × List String)
deriving Repr, DecidableEq

/-- `RecordCatalog()`: fresh catalog. -/
def emptyCatalog : RecordCatalog :=
  { indexer := [], supported := [], index_owners := [] }

/-- Append an owner name to the owner list stored at an index name. -/
def appendOwner (owners : List (String × List String)) (idxname schemaName : String) :
    List (String × List String) :=
  match alookup owners idxname with
  | some l => aset owners idxname (l ++ [schemaName])
  | none => owners

/-- The body of the inner loop of `RecordCatalog.bind` for one index name:
`idxtype = idxname.split('.')[0]`; when the name is not yet in the indexer,
`_add_index` creates it and the schema name is appended to the owner list —
note that, as in the source, the owner bookkeeping sits entirely *inside* the
`if idxname not in self.indexer` branch, so a schema reusing an existing
index name is never recorded as an owner. -/
def bindStep (schemaName : String) (cat : RecordCatalog) (idxname : String) :
    RecordCatalog :=
  let idxtype := pySplitHead idxname '.'
  if (alookup cat.indexer idxname).isSome then cat
  else
    let owners0 :=
      if (alookup cat.index_owners idxname).isSome then cat.index_owners
      else aset cat.index_owners idxname []
    { cat with
        indexer := aset cat.indexer idxname idxtype
        index_owners := appendOwner owners0 idxname schemaName }

/-- `RecordCatalog.bind(schema, omit=(), index_types=None)`: adapt the schema
to a fresh `SchemaInfo`, create any missing index for every field's index
names, record the info under the schema name.  The `omit` and `index_types`
parameters are declared by the signature but the body never reads them: in
particular no combination of `index_types` values is validated and no
`ValueError` is ever raised (the function's own docstring says malformed
combinations "should raise a ValueError"). -/
def bind (cat : RecordCatalog) (_omit : List String)
    (_index_types : List (String × String)) (schemaName : String)
    (schemaFields : List (String × FieldKind)) : Except PyErr RecordCatalog :=
  let info := mkSchemaInfo schemaName schemaFields
  let cat1 := info.fields.foldl
    (fun c fi => (fieldInfoIndexes fi).foldl (bindStep info.name) c) cat
  .ok { cat1 with supported := aset cat1.supported info.name info }

/-- `RecordCatalog.unbind(schema, remove_indexes=False)`: adapt the schema to
a *fresh* `SchemaInfo` and, if its name is in `supported`, execute
`del(self.supported[name])` — but `name` is a variable that is assigned
nowhere in the function and exists neither in the module globals nor in
builtins, so CPython raises `NameError` there, before any removal; the rest
of the body (including the whole `remove_indexes` branch, which would
iterate the fresh adapter's always-empty `info.indexes`) is unreachable.
When the schema is not in `supported`, the function returns having done
nothing. -/
def unbind (cat : RecordCatalog) (schemaName : String)
    (schemaFields : List (String × FieldKind)) (_remove_indexes : Bool) :
    RecordCatalog × Option PyErr :=
  let info := mkSchemaInfo schemaName schemaFields
  if (alookup cat.supported info.name).isSome then
    (cat, some (.nameError "name"))
  else (cat, none)

/-! ### Operation sequences and the container invariant -/

/-- One client-visible CRUD call from the set quantified over by the
invariant claim.  `update` is taken in its mapping form (the
`IRecord`-object form funnels through `_filtered_data` into the same code
path); the fresh UID stands for the `str(uuid.uuid4())` drawn when the data
supplies none. -/
inductive Op where
  | opAdd (r : Record)
  | opCreate (freshUid : String) (data : Option (List (String × Value)))
  | opUpdate (freshUid : String) (data : List (String × Value))

/-- Apply one operation; a raised exception leaves the container in the
state reached when it propagates (none of these operations mutates
`entries`/`order` before raising). -/
def applyOp (c : Container) : Op → Container
  | .opAdd r => (add c r).1
  | .opCreate f d => (create c f d).1
  | .opUpdate f d => (update c f d false).1

/-- Run a call sequence against a fresh container. -/
def runOps (ops : List Op) : Container := ops.foldl applyOp emptyContainer

/-- The container invariant of the specification: `order` is duplicate-free,
the entry keys are duplicate-free, and `order` and the entry-key set contain
the same UIDs. -/
def Inv (c : Container) : Prop :=
  c.order.Nodup ∧ (akeys c.entries).Nodup ∧
  (∀ u ∈ c.order, u ∈ akeys c.entries) ∧ ∀ u ∈ akeys c.entries, u ∈ c.order

/-! ### Concrete scenarios used by the theorems -/

/-- A 36-character string UUID. -/
def uidA : String := "00000000-0000-0000-0000-00000000000a"

/-- A second 36-character string UUID. -/
def uidB : String := "00000000-0000-0000-0000-00000000000b"

/-- A record that already carries the attribute `count = 5`. -/
def rC3 : Record := { record_uid := uidA, attrs := [("count", .vint 5)], pChanged := false }

/-- A container holding `rC3` under `uidA`. -/
def cC3 : Container := { entries := [(uidA, rC3)], order := [uidA], record_uid := none }

/-- The result of updating `rC3` with exactly its current value. -/
def c3result := update cC3 "unused-fresh" [("record_uid", .vstr uidA), ("count", .vint 5)] false

/-- A parsed serialized payload: a JSON array with one record object
carrying `record_uid = uidB`. -/
def payloadB : Value := .vlist [.vdict [("record_uid", .vstr uidB)]]

/-- A parsed serialized payload listing the same `record_uid` twice. -/
def payloadDup : Value :=
  .vlist [.vdict [("record_uid", .vstr uidB)], .vdict [("record_uid", .vstr uidB)]]


/-- The result of `create` on data holding a scalar and a homogeneous
sequence of scalars. -/
def c4result :=
  create emptyContainer "unused-fresh"
    (some [("record_uid", .vstr uidA), ("count", .vint 5),
           ("tags", .vlist [.vint 1, .vint 2])])


/-- The result of `update_all` on a plain (non-string) one-entry sequence
whose entry does carry a `record_uid`. -/
def c5result := update_all emptyContainer ["f1"] (.pyObj [[("record_uid", .vstr uidA)]])


/-- The result of `create` on data consisting only of a `record_uid`. -/
def c6result := create emptyContainer "unused-fresh" (some [("record_uid", .vstr uidA)])

/-- The result of `bind` with an explicit `index_types` override requesting a
text index on an integer (non-text, non-collection) field. -/
def c8result := bind emptyCatalog [] [("num", "text")] "pkg.INum" [("num", .intField)]


/-- The catalog obtained by binding one single-field schema, then the result
of unbinding that same schema with `remove_indexes=True`. -/
def c9cat : RecordCatalog :=
  match bind emptyCatalog [] [] "pkg.IS1" [("title", .textLine)] with
  | .ok cat => cat
  | .error _ => emptyCatalog

/-- The result of `unbind` on the bound schema. -/
def c9result := unbind c9cat "pkg.IS1" [("title", .textLine)] true


/-! ### Association-list lemmas -/

theorem akeys_nil {α : Type} : akeys ([] : List (String × α)) = [] := rfl

theorem akeys_cons {α : Type} (k : String) (v : α) (l : List (String × α)) :
    akeys ((k, v) :: l) = k :: akeys l := rfl

theorem akeys_aset {α : Type} (l : List (String × α)) (k : String) (v : α) :
    akeys (aset l k v) = if k ∈ akeys l then akeys l else akeys l ++ [k] := by
  induction l with
  | nil => simp [aset, akeys]
  | cons p rest ih =>
    obtain ⟨k1, w⟩ := p
    by_cases h : k1 = k
    · subst h
      simp [aset, akeys_cons]
    · have hne : ¬ k = k1 := fun he => h he.symm
      by_cases h2 : k ∈ akeys rest
      · simp [aset, h, akeys_cons, ih, h2, hne]
      · simp [aset, h, akeys_cons, ih, h2, hne]

theorem alookup_isSome_iff_mem {α : Type} (l : List (String × α)) (k : String) :
    (alookup l k).isSome = true ↔ k ∈ akeys l := by
  induction l with
  | nil => simp [alookup, akeys]
  | cons p rest ih =>
    obtain ⟨k1, w⟩ := p
    by_cases h : k1 = k
    · subst h; simp [alookup, akeys_cons]
    · have hne : ¬ k = k1 := fun he => h he.symm
      simp [alookup, akeys_cons, h, hne, ih]

theorem nodup_akeys_aset {α : Type} (l : List (String × α)) (k : String) (v : α)
    (h : (akeys l).Nodup) : (akeys (aset l k v)).Nodup := by
  rw [akeys_aset]
  by_cases h2 : k ∈ akeys l
  · simpa [h2] using h
  · simp only [if_neg h2]
    simp [List.nodup_append, h, h2]

theorem akeys_aerase {α : Type} (l : List (String × α)) (k : String) :
    akeys (aerase l k) = (akeys l).erase k := by
  induction l with
  | nil => simp [aerase, akeys]
  | cons p rest ih =>
    obtain ⟨k1, w⟩ := p
    by_cases h : k1 = k
    · subst h
      simp [aerase, akeys_cons]
    · simp [aerase, akeys_cons, h, ih, List.erase_cons_tail,
        (by simpa using h : ¬ (k1 == k) = true)]

theorem alookup_aerase_of_ne {α : Type} (l : List (String × α)) (k u : String)
    (h : ¬ u = k) : alookup (aerase l k) u = alookup l u := by
  induction l with
  | nil => simp [aerase]
  | cons p rest ih =>
    obtain ⟨k1, w⟩ := p
    by_cases h1 : k1 = k
    · subst h1
      have : ¬ k1 = u := fun he => h (he.symm)
      simp [aerase, alookup, this]
    · by_cases h2 : k1 = u
      · subst h2; simp [aerase, alookup, h1]
      · simp [aerase, alookup, h1, h2, ih]

theorem alookup_aerase_self {α : Type} (l : List (String × α)) (k : String)
    (hnd : (akeys l).Nodup) : alookup (aerase l k) k = none := by
  induction l with
  | nil => simp [aerase, alookup]
  | cons p rest ih =>
    obtain ⟨k1, w⟩ := p
    rw [akeys_cons] at hnd
    by_cases h1 : k1 = k
    · subst h1
      simp only [aerase, if_pos rfl]
      cases ho : alookup rest k1 with
      | none => exact ho
      | some w2 =>
        exfalso
        have : k1 ∈ akeys rest := by
          rw [← alookup_isSome_iff_mem, ho]; rfl
        exact (List.nodup_cons.mp hnd).1 this
    · simp [aerase, alookup, h1, ih (List.nodup_cons.mp hnd).2]

/-! ### State-shape lemmas for the container operations -/

theorem populateLoop_state (data : List (String × Value)) :
    ∀ (c : Container) (r : Record) (chlog : List String),
      (populateLoop c r chlog data).1.entries = c.entries ∧
      (populateLoop c r chlog data).1.order = c.order ∧
      (populateLoop c r chlog data).2.1.record_uid = r.record_uid := by
  induction data with
  | nil => intro c r chlog; exact ⟨rfl, rfl, rfl⟩
  | cons kv rest ih =>
    intro c r chlog
    obtain ⟨key, value⟩ := kv
    simp only [populateLoop]
    split
    · exact ih c r chlog
    · split
      · simpa using ih { c with record_uid := some (pyStr value) } r chlog
      · split
        · exact ih c r chlog
        · exact ⟨rfl, rfl, rfl⟩
        · split
          · exact ih c r chlog
          · simpa using ih c (setattrRecord r key value) (chlog ++ [key])

theorem populateRecord_state (c : Container) (r : Record)
    (data : List (String × Value)) :
    (populateRecord c r data).1.entries = c.entries ∧
    (populateRecord c r data).1.order = c.order ∧
    (populateRecord c r data).2.1.record_uid = r.record_uid := by
  have h := populateLoop_state data c r []
  simp only [populateRecord]
  split
  · exact h
  · split
    · exact h
    · exact ⟨h.1, h.2.1, h.2.2⟩

theorem create_state (c : Container) (f : String)
    (d : Option (List (String × Value))) :
    (create c f d).1.entries = c.entries ∧ (create c f d).1.order = c.order := by
  simp only [create]
  split
  · exact ⟨rfl, rfl⟩
  · have h := populateRecord_state c
      { record_uid :=
          match alookup (d.getD []) "record_uid" with
          | some v => pyStr v
          | none => f
        attrs := [], pChanged := false } (d.getD [])
    split
    · exact ⟨h.1, h.2.1⟩
    · exact ⟨h.1, h.2.1⟩

theorem mem_akeys_aset_self {α : Type} (l : List (String × α)) (k : String) (v : α) :
    k ∈ akeys (aset l k v) := by
  rw [akeys_aset]
  by_cases h : k ∈ akeys l <;> simp [h]

theorem create_ok_record (c : Container) (f : String) (data : List (String × Value))
    (hne : ¬ data = []) (h : (create c f (some data)).2.2.2 = none) :
    ∃ r, (create c f (some data)).2.1 = some r := by
  simp only [create] at h ⊢
  rw [if_neg (by simpa using hne)] at h ⊢
  split at h
  · simp at h
  · exact ⟨_, rfl⟩

theorem create_record_uid (c : Container) (f : String)
    (data : Option (List (String × Value))) (r : Record)
    (h : (create c f data).2.1 = some r) :
    r.record_uid = (match alookup (data.getD []) "record_uid" with
                    | some v => pyStr v
                    | none => f) := by
  simp only [create] at h
  split at h
  · cases h; rfl
  · split at h
    · simp at h
    · cases h
      exact (populateRecord_state c _ _).2.2

theorem add_effect (c : Container) (r : Record) :
    ((add c r).1.entries = c.entries ∧ (add c r).1.order = c.order) ∨
    (¬ r.record_uid = "" ∧
     (add c r).1.entries = aset c.entries r.record_uid r ∧
     (add c r).1.order =
       (if r.record_uid ∈ c.order then c.order else c.order ++ [r.record_uid])) := by
  simp only [add]
  split
  · exact .inl ⟨rfl, rfl⟩
  · rename_i hu
    exact .inr ⟨hu, rfl, rfl⟩

/-- The three possible shapes of the container after one `update` call:
unchanged (the error paths), an in-place overwrite of an existing key, or a
create-and-add of a fresh key. -/
theorem update_effect (c : Container) (f : String) (data : List (String × Value))
    (s : Bool) :
    ((update c f data s).1.entries = c.entries ∧
      (update c f data s).1.order = c.order) ∨
    (∃ v r1, alookup data "record_uid" = some v ∧
      (alookup c.entries (pyStr v)).isSome = true ∧
      (update c f data s).1.entries = aset c.entries (pyStr v) r1 ∧
      (update c f data s).1.order = c.order) ∨
    (∃ v r1, alookup data "record_uid" = some v ∧
      alookup c.entries (pyStr v) = none ∧ ¬ pyStr v = "" ∧
      (update c f data s).1.entries = aset c.entries (pyStr v) r1 ∧
      (update c f data s).1.order =
        (if pyStr v ∈ c.order then c.order else c.order ++ [pyStr v])) := by
  simp only [update]
  split
  · exact .inl ⟨rfl, rfl⟩
  · rename_i v hv
    split
    · exact .inl ⟨rfl, rfl⟩
    · simp only [updateWithUid]
      split
      · rename_i r hr
        have hp := populateRecord_state c r data
        refine .inr (.inl ⟨v, (populateRecord c r data).2.1, hv, ?_, ?_, ?_⟩)
        · rw [hr]; rfl
        · split
          · simp [hp.1]
          · split <;> simp [hp.1]
        · split
          · simp [hp.2.1]
          · split <;> simp [hp.2.1]
      · rename_i hr
        have hc := create_state c f (some data)
        split
        · exact .inl ⟨by rw [hc.1], by rw [hc.2]⟩
        · exact .inl ⟨by rw [hc.1], by rw [hc.2]⟩
        · rename_i r herr hro
          have hruid : r.record_uid = pyStr v := by
            have := create_record_uid c f (some data) r hro
            simpa [hv] using this
          have hadd := add_effect (create c f (some data)).1 r
          rcases hadd with ⟨ha1, ha2⟩ | ⟨hu, ha1, ha2⟩
          · refine .inl ⟨?_, ?_⟩
            · split
              · simp [ha1, hc.1]
              · split <;> simp [ha1, hc.1]
            · split
              · simp [ha2, hc.2]
              · split <;> simp [ha2, hc.2]
          · rw [hc.1] at ha1
            rw [hc.2] at ha2
            rw [hruid] at hu ha1 ha2
            refine .inr (.inr ⟨v, r, hv, hr, hu, ?_, ?_⟩)
            · split
              · simp [ha1]
              · split <;> simp [ha1]
            · split
              · simp [ha2]
              · split <;> simp [ha2]

/-! ### Invariant preservation -/

theorem create_Inv (c : Container) (f : String)
    (d : Option (List (String × Value))) (h : Inv c) : Inv (create c f d).1 := by
  obtain ⟨h1, h2, h3, h4⟩ := h
  have hc := create_state c f d
  exact ⟨by rw [hc.2]; exact h1, by rw [hc.1]; exact h2,
    by rw [hc.1, hc.2]; exact h3, by rw [hc.1, hc.2]; exact h4⟩

theorem add_Inv (c : Container) (r : Record) (h : Inv c) : Inv (add c r).1 := by
  obtain ⟨h1, h2, h3, h4⟩ := h
  rcases add_effect c r with ⟨he, ho⟩ | ⟨_hu, he, ho⟩
  · exact ⟨by rw [ho]; exact h1, by rw [he]; exact h2,
      by rw [he, ho]; exact h3, by rw [he, ho]; exact h4⟩
  · by_cases hm : r.record_uid ∈ c.order
    · have hk : r.record_uid ∈ akeys c.entries := h3 _ hm
      rw [if_pos hm] at ho
      have hke : akeys (aset c.entries r.record_uid r) = akeys c.entries := by
        rw [akeys_aset, if_pos hk]
      exact ⟨by rw [ho]; exact h1, by rw [he, hke]; exact h2,
        by rw [he, ho, hke]; exact h3, by rw [he, ho, hke]; exact h4⟩
    · have hk : ¬ r.record_uid ∈ akeys c.entries := fun hkk => hm (h4 _ hkk)
      rw [if_neg hm] at ho
      have hke : akeys (aset c.entries r.record_uid r) = akeys c.entries ++ [r.record_uid] := by
        rw [akeys_aset, if_neg hk]
      refine ⟨?_, ?_, ?_, ?_⟩
      · rw [ho]; simp [List.nodup_append, h1, hm]
      · rw [he, hke]; simp [List.nodup_append, h2, hk]
      · rw [he, ho, hke]
        intro u hu
        rcases List.mem_append.mp hu with hmm | hmm
        · exact List.mem_append.mpr (.inl (h3 _ hmm))
        · exact List.mem_append.mpr (.inr hmm)
      · rw [he, ho, hke]
        intro u hu
        rcases List.mem_append.mp hu with hmm | hmm
        · exact List.mem_append.mpr (.inl (h4 _ hmm))
        · exact List.mem_append.mpr (.inr hmm)

theorem update_Inv (c : Container) (f : String) (data : List (String × Value))
    (s : Bool) (h : Inv c) : Inv (update c f data s).1 := by
  obtain ⟨h1, h2, h3, h4⟩ := h
  rcases update_effect c f data s with ⟨he, ho⟩ | ⟨v, r1, _hv, hs, he, ho⟩ |
    ⟨v, r1, _hv, hn, _hu, he, ho⟩
  · exact ⟨by rw [ho]; exact h1, by rw [he]; exact h2,
      by rw [he, ho]; exact h3, by rw [he, ho]; exact h4⟩
  · have hk : pyStr v ∈ akeys c.entries := (alookup_isSome_iff_mem _ _).mp hs
    have hke : akeys (aset c.entries (pyStr v) r1) = akeys c.entries := by
      rw [akeys_aset, if_pos hk]
    exact ⟨by rw [ho]; exact h1, by rw [he, hke]; exact h2,
      by rw [he, ho, hke]; exact h3, by rw [he, ho, hke]; exact h4⟩
  · have hk : ¬ pyStr v ∈ akeys c.entries := by
      rw [← alookup_isSome_iff_mem, hn]; simp
    have hor : ¬ pyStr v ∈ c.order := fun hm => hk (h3 _ hm)
    have hke : akeys (aset c.entries (pyStr v) r1) = akeys c.entries ++ [pyStr v] := by
      rw [akeys_aset, if_neg hk]
    rw [if_neg hor] at ho
    refine ⟨?_, ?_, ?_, ?_⟩
    · rw [ho]; simp [List.nodup_append, h1, hor]
    · rw [he, hke]; simp [List.nodup_append, h2, hk]
    · rw [he, ho, hke]
      intro u hu
      rcases List.mem_append.mp hu with hm | hm
      · exact List.mem_append.mpr (.inl (h3 _ hm))
      · exact List.mem_append.mpr (.inr hm)
    · rw [he, ho, hke]
      intro u hu
      rcases List.mem_append.mp hu with hm | hm
      · exact List.mem_append.mpr (.inl (h4 _ hm))
      · exact List.mem_append.mpr (.inr hm)

theorem applyOp_Inv (c : Container) (op : Op) (h : Inv c) : Inv (applyOp c op) := by
  cases op with
  | opAdd r => exact add_Inv c r h
  | opCreate f d => exact create_Inv c f d h
  | opUpdate f d => exact update_Inv c f d false h

theorem emptyContainer_Inv : Inv emptyContainer := by
  refine ⟨?_, ?_, ?_, ?_⟩ <;> simp [emptyContainer, akeys]

theorem runOps_Inv (ops : List Op) : Inv (runOps ops) := by
  have hgen : ∀ (c : Container), Inv c → Inv (ops.foldl applyOp c) := by
    induction ops with
    | nil => intro c h; exact h
    | cons op rest ih => intro c h; exact ih _ (applyOp_Inv c op h)
  exact hgen emptyContainer emptyContainer_Inv

/-- Claim C2: for every finite sequence of `add`/`create`/`update` calls on a
fresh container, at every observation point (i.e. after every such
sequence): `keys()` equals the `order` sequence, the set of keys equals the
set of entry keys, `order` has no duplicate UID, and
`len(container) == len(order) == len(entries)`. -/
theorem container_invariants_hold (ops : List Op) :
    keysC (runOps ops) = (runOps ops).order ∧
    (runOps ops).order.Nodup ∧
    (∀ u, u ∈ keysC (runOps ops) ↔ u ∈ akeys (runOps ops).entries) ∧
    containerLen (runOps ops) = (runOps ops).order.length ∧
    (runOps ops).order.length = (runOps ops).entries.length := by
  obtain ⟨h1, h2, h3, h4⟩ := runOps_Inv ops
  refine ⟨rfl, h1, fun u => ⟨h3 u, h4 u⟩, rfl, ?_⟩
  have hperm : (runOps ops).order.Perm (akeys (runOps ops).entries) :=
    (List.perm_ext_iff_of_nodup h1 h2).mpr (fun u => ⟨h3 u, h4 u⟩)
  have := hperm.length_eq
  simpa [akeys] using this

/-! ### Effect lemmas feeding the `update_all` proofs -/

theorem mem_akeys_aset_of_mem {α : Type} (l : List (String × α)) (k u : String)
    (v : α) (hu : u ∈ akeys l) : u ∈ akeys (aset l k v) := by
  rw [akeys_aset]
  by_cases h : k ∈ akeys l <;> simp [h, hu]

theorem update_keys_monotone (c : Container) (f : String)
    (data : List (String × Value)) (s : Bool) (u : String)
    (hu : u ∈ akeys c.entries) : u ∈ akeys (update c f data s).1.entries := by
  rcases update_effect c f data s with ⟨he, _⟩ | ⟨v, r1, _, _, he, _⟩ |
    ⟨v, r1, _, _, _, he, _⟩
  · rw [he]; exact hu
  · rw [he]; exact mem_akeys_aset_of_mem _ _ _ _ hu
  · rw [he]; exact mem_akeys_aset_of_mem _ _ _ _ hu

theorem update_keys_bound (c : Container) (f : String)
    (data : List (String × Value)) (s : Bool) (v : Value)
    (hv : alookup data "record_uid" = some v) (u : String)
    (hu : u ∈ akeys (update c f data s).1.entries) :
    u ∈ akeys c.entries ∨ u = pyStr v := by
  rcases update_effect c f data s with ⟨he, _⟩ | ⟨w, r1, hw, _, he, _⟩ |
    ⟨w, r1, hw, _, _, he, _⟩
  · rw [he] at hu; exact .inl hu
  · rw [he, akeys_aset] at hu
    have hvw : w = v := by rw [hv] at hw; exact (Option.some.injEq _ _).mp hw.symm
    subst hvw
    by_cases h : pyStr w ∈ akeys c.entries
    · rw [if_pos h] at hu; exact .inl hu
    · rw [if_neg h] at hu
      rcases List.mem_append.mp hu with hm | hm
      · exact .inl hm
      · exact .inr (List.mem_singleton.mp hm)
  · rw [he, akeys_aset] at hu
    have hvw : w = v := by rw [hv] at hw; exact (Option.some.injEq _ _).mp hw.symm
    subst hvw
    by_cases h : pyStr w ∈ akeys c.entries
    · rw [if_pos h] at hu; exact .inl hu
    · rw [if_neg h] at hu
      rcases List.mem_append.mp hu with hm | hm
      · exact .inl hm
      · exact .inr (List.mem_singleton.mp hm)

theorem update_order_monotone (c : Container) (f : String)
    (data : List (String × Value)) (s : Bool) :
    ∃ ext, (update c f data s).1.order = c.order ++ ext := by
  rcases update_effect c f data s with ⟨_, ho⟩ | ⟨v, r1, _, _, _, ho⟩ |
    ⟨v, r1, _, _, _, _, ho⟩
  · exact ⟨[], by rw [ho]; simp⟩
  · exact ⟨[], by rw [ho]; simp⟩
  · by_cases h : pyStr v ∈ c.order
    · exact ⟨[], by rw [ho, if_pos h]; simp⟩
    · exact ⟨[pyStr v], by rw [ho, if_neg h]⟩

theorem add_ok_entries (c : Container) (r : Record)
    (hok : (add c r).2.2 = none) :
    (add c r).1.entries = aset c.entries r.record_uid r := by
  simp only [add] at hok ⊢
  split at hok
  · simp at hok
  · rename_i h
    rw [if_neg h]

theorem updateWithUid_ok_mem_key (c : Container) (f : String)
    (data : List (String × Value)) (s : Bool) (uid : String)
    (hdne : ¬ data = [])
    (hcu : (match alookup data "record_uid" with
            | some v => pyStr v
            | none => f) = uid)
    (hok : (updateWithUid c f data s uid).2.2.2 = none) :
    uid ∈ akeys (updateWithUid c f data s uid).1.entries := by
  simp only [updateWithUid] at hok ⊢
  cases hval : alookup c.entries uid with
  | some r =>
    simp only [hval] at hok ⊢
    split
    · exact mem_akeys_aset_self _ _ _
    · split
      · exact mem_akeys_aset_self _ _ _
      · exact mem_akeys_aset_self _ _ _
  | none =>
    simp only [hval] at hok ⊢
    split at hok
    · simp at hok
    · rename_i herr hro
      exfalso
      rcases create_ok_record c f data hdne herr with ⟨r, hsome⟩
      rw [hro] at hsome
      exact Option.noConfusion hsome
    · rename_i r herr hro
      have hruid : r.record_uid = uid := by
        have h1 := create_record_uid c f (some data) r hro
        rw [h1]; exact hcu
      split at hok
      · simp at hok
      · rename_i hadd
        have he := add_ok_entries (create c f (some data)).1 r hadd
        rw [hruid] at he
        split
        · rw [he]
          exact mem_akeys_aset_self _ _ _
        · rw [he]
          exact mem_akeys_aset_self _ _ _

theorem update_ok_mem_key (c : Container) (f : String)
    (data : List (String × Value)) (s : Bool) (v : Value)
    (hv : alookup data "record_uid" = some v)
    (hok : (update c f data s).2.2.2 = none) :
    pyStr v ∈ akeys (update c f data s).1.entries := by
  have hdne : ¬ data = [] := by
    intro h; rw [h] at hv; exact Option.noConfusion hv
  simp only [update, hv] at hok ⊢
  by_cases hn : isVNone v = true
  · rw [if_pos hn] at hok
    simp at hok
  · rw [if_neg hn] at hok ⊢
    exact updateWithUid_ok_mem_key c f data s (pyStr v) hdne (by rw [hv]) hok
/-! ### The `update_all` loop and deletion pass -/

theorem uaLoop_spec (es : List (List (String × Value))) :
    ∀ (c : Container) (fresh : List String) (m : Bool) (us : List String),
      extractUids es = .ok us →
      (uaLoop c fresh m es).2.2.2.2 = none →
      Inv c →
      Inv (uaLoop c fresh m es).1 ∧
      (∃ ext, (uaLoop c fresh m es).1.order = c.order ++ ext) ∧
      (∀ u ∈ akeys (uaLoop c fresh m es).1.entries,
        u ∈ akeys c.entries ∨ u ∈ us) ∧
      (∀ u ∈ us, u ∈ akeys (uaLoop c fresh m es).1.entries) ∧
      (∀ u ∈ akeys c.entries, u ∈ akeys (uaLoop c fresh m es).1.entries) := by
  induction es with
  | nil =>
    intro c fresh m us hus hok hInv
    simp only [extractUids] at hus
    cases hus
    refine ⟨hInv, ⟨[], by simp [uaLoop]⟩, fun u hu => .inl hu, by simp,
      fun u hu => hu⟩
  | cons e rest ih =>
    intro c fresh m us hus hok hInv
    simp only [extractUids] at hus
    cases hv : alookup e "record_uid" with
    | none => rw [hv] at hus; simp at hus
    | some v =>
      rw [hv] at hus
      cases hrest : extractUids rest with
      | error e2 => rw [hrest] at hus; simp [Except.map] at hus
      | ok us2 =>
        rw [hrest] at hus
        have husv : us = pyStr v :: us2 := by
          simpa [Except.map] using hus.symm
        subst husv
        simp only [uaLoop, hv] at hok ⊢
        simp only [Option.isNone_some, Bool.false_eq_true, if_false] at hok ⊢
        cases herr : (update c (fresh.headD "unused-fresh-uid") e true).2.2.2 with
        | some er => simp only [herr] at hok; simp at hok
        | none =>
          simp only [herr] at hok ⊢
          have hok2 : (uaLoop (update c (fresh.headD "unused-fresh-uid") e true).1
              fresh.tail
              (m || (match (update c (fresh.headD "unused-fresh-uid") e true).2.1 with
                     | some r => r.pChanged
                     | none => false)) rest).2.2.2.2 = none := hok
          have hInv1 := update_Inv c (fresh.headD "unused-fresh-uid") e true hInv
          obtain ⟨ihInv, ⟨ext2, ihord⟩, ihbound, ihmem, ihpersist⟩ :=
            ih _ fresh.tail _ us2 hrest hok2 hInv1
          obtain ⟨ext1, hord1⟩ :=
            update_order_monotone c (fresh.headD "unused-fresh-uid") e true
          refine ⟨ihInv, ⟨ext1 ++ ext2, ?_⟩, ?_, ?_, ?_⟩
          · rw [ihord, hord1, List.append_assoc]
          · intro u hu
            rcases ihbound u hu with hm | hm
            · rcases update_keys_bound c (fresh.headD "unused-fresh-uid")
                e true v hv u hm with hm2 | hm2
              · exact .inl hm2
              · exact .inr (by rw [hm2]; exact List.mem_cons_self _ _)
            · exact .inr (List.mem_cons_of_mem _ hm)
          · intro u hu
            rcases List.mem_cons.mp hu with hm | hm
            · subst hm
              exact ihpersist _ (update_ok_mem_key c
                (fresh.headD "unused-fresh-uid") e true v hv herr)
            · exact ihmem _ hm
          · intro u hu
            exact ihpersist _ (update_keys_monotone c
              (fresh.headD "unused-fresh-uid") e true u hu)

theorem delItemUid_ok_entries (c : Container) (u : String)
    (hok : (delItemUid c u).2.2 = none) :
    (delItemUid c u).1.entries = aerase c.entries u := by
  simp only [delItemUid] at hok ⊢
  split at hok
  · simp at hok
  · rename_i h36
    split at hok
    · simp at hok
    · rename_i hin
      rw [if_neg h36, if_neg hin]

theorem delMany_spec (rl : List String) :
    ∀ (c : Container), (akeys c.entries).Nodup →
      (delMany c rl).2.2 = none →
      (akeys (delMany c rl).1.entries).Nodup ∧
      (∀ u, alookup (delMany c rl).1.entries u =
        if u ∈ rl then none else alookup c.entries u) := by
  induction rl with
  | nil =>
    intro c hnd _
    exact ⟨hnd, fun u => by simp [delMany]⟩
  | cons x rest ih =>
    intro c hnd hok
    simp only [delMany] at hok ⊢
    cases herr : (delItemUid c x).2.2 with
    | some e2 => simp only [herr] at hok; simp at hok
    | none =>
      simp only [herr] at hok ⊢
      have hent := delItemUid_ok_entries c x herr
      have hnd1 : (akeys (delItemUid c x).1.entries).Nodup := by
        rw [hent, akeys_aerase]
        exact hnd.erase x
      obtain ⟨ihnd, ihchar⟩ := ih _ hnd1 hok
      refine ⟨ihnd, ?_⟩
      intro u
      by_cases hmem : u ∈ x :: rest
      · rw [if_pos hmem]
        rcases List.mem_cons.mp hmem with hm | hm
        · subst hm
          by_cases hr : u ∈ rest
          · rw [ihchar u, if_pos hr]
          · rw [ihchar u, if_neg hr, hent]
            exact alookup_aerase_self c.entries u hnd
        · rw [ihchar u, if_pos hm]
      · have hx : ¬ u = x := fun h => hmem (by rw [h]; exact List.mem_cons_self _ _)
        have hr : ¬ u ∈ rest := fun h => hmem (List.mem_cons_of_mem _ h)
        rw [if_neg hmem, ihchar u, if_neg hr, hent]
        exact alookup_aerase_of_ne c.entries x u hx

/-- The combined effect of the serialized `update_all` core on a container
satisfying the invariant: afterwards `order` is the incoming UID list
verbatim, the entry keys are duplicate-free, the entry-key set is exactly
the incoming UID set, and every previously contained UID absent from the
incoming set has been deleted from `entries`. -/
theorem uaCore_spec (c : Container) (fresh : List String) (m0 : Bool)
    (es : List (List (String × Value))) (us : List String)
    (hus : extractUids es = .ok us)
    (hInv : Inv c)
    (hok : (uaCore c fresh m0 es).2.2 = none) :
    (uaCore c fresh m0 es).1.order = us ∧
    (akeys (uaCore c fresh m0 es).1.entries).Nodup ∧
    (∀ u, u ∈ akeys (uaCore c fresh m0 es).1.entries ↔ u ∈ us) ∧
    (∀ u, u ∈ akeys c.entries → ¬ u ∈ us →
      alookup (uaCore c fresh m0 es).1.entries u = none) := by
  simp only [uaCore, hus] at hok ⊢
  cases herr : (uaLoop c fresh m0 es).2.2.2.2 with
  | some e2 => simp only [herr] at hok; simp at hok
  | none =>
    simp only [herr] at hok ⊢
    obtain ⟨⟨_hnd1o, hnd1k, _h13, h14⟩, ⟨ext, _hord⟩, hbound, hmem, hpersist⟩ :=
      uaLoop_spec es c fresh m0 us hus herr hInv
    cases hdel : (delMany (uaLoop c fresh m0 es).1
        ((keysC (uaLoop c fresh m0 es).1).dedup.filter
          (fun u => u ∉ us))).2.2 with
    | some e2 => simp only [hdel] at hok; simp at hok
    | none =>
      simp only [hdel] at hok ⊢
      obtain ⟨hnd2, hchar⟩ := delMany_spec _ _ hnd1k hdel
      have hmemrl : ∀ u, u ∈ ((keysC (uaLoop c fresh m0 es).1).dedup.filter
          (fun u => u ∉ us)) ↔
          (u ∈ (uaLoop c fresh m0 es).1.order ∧ ¬ u ∈ us) := by
        intro u
        simp [List.mem_filter, List.mem_dedup, keysC]
      have hiff : ∀ u, u ∈ akeys (delMany (uaLoop c fresh m0 es).1
          ((keysC (uaLoop c fresh m0 es).1).dedup.filter
            (fun u => u ∉ us))).1.entries ↔ u ∈ us := by
        intro u
        constructor
        · intro hu
          have hsome := (alookup_isSome_iff_mem _ u).mpr hu
          rw [hchar u] at hsome
          by_cases hrl : u ∈ ((keysC (uaLoop c fresh m0 es).1).dedup.filter
              (fun u => u ∉ us))
          · rw [if_pos hrl] at hsome; simp at hsome
          · rw [if_neg hrl] at hsome
            have hu1 : u ∈ akeys (uaLoop c fresh m0 es).1.entries :=
              (alookup_isSome_iff_mem _ u).mp hsome
            by_cases hus2 : u ∈ us
            · exact hus2
            · exact absurd ((hmemrl u).mpr ⟨h14 u hu1, hus2⟩) hrl
        · intro hu
          have hu1 := hmem u hu
          have hsome := (alookup_isSome_iff_mem _ u).mpr hu1
          have hrl : ¬ u ∈ ((keysC (uaLoop c fresh m0 es).1).dedup.filter
              (fun u => u ∉ us)) := fun hr => ((hmemrl u).mp hr).2 hu
          have : (alookup (delMany (uaLoop c fresh m0 es).1
              ((keysC (uaLoop c fresh m0 es).1).dedup.filter
                (fun u => u ∉ us))).1.entries u).isSome = true := by
            rw [hchar u, if_neg hrl]
            exact hsome
          exact (alookup_isSome_iff_mem _ u).mp this
      have hdelchar : ∀ u, u ∈ akeys c.entries → ¬ u ∈ us →
          alookup (delMany (uaLoop c fresh m0 es).1
            ((keysC (uaLoop c fresh m0 es).1).dedup.filter
              (fun u => u ∉ us))).1.entries u = none := by
        intro u hu hnus
        have hu1 := hpersist u hu
        have hrl : u ∈ ((keysC (uaLoop c fresh m0 es).1).dedup.filter
            (fun u => u ∉ us)) := (hmemrl u).mpr ⟨h14 u hu1, hnus⟩
        rw [hchar u, if_pos hrl]
      split <;> exact ⟨rfl, hnd2, hiff, hdelchar⟩
/-- Claim C1: for every bulk payload accepted by `update_all` in serialized
form (each entry carrying a `record_uid`), after a successful call: every
UID contained before the call that does not appear in the payload has been
deleted from both `entries` and `order`, and `order` equals exactly the
payload's UID sequence in the payload's listed order, regardless of the
prior order (the prior container is only assumed to satisfy the invariant,
which holds in every reachable state by `container_invariants_hold`). -/
theorem update_all_serialized_sync (c : Container) (fresh : List String)
    (parsed : Value) (es : List (List (String × Value))) (m0 : Bool)
    (us : List String)
    (hn : uaNormalize parsed = .ok (es, m0))
    (hus : extractUids es = .ok us)
    (hInv : Inv c)
    (hok : (update_all c fresh (.text parsed)).2.2 = none) :
    keysC (update_all c fresh (.text parsed)).1 = us ∧
    (update_all c fresh (.text parsed)).1.order = us ∧
    (∀ u, u ∈ akeys c.entries → ¬ u ∈ us →
      alookup (update_all c fresh (.text parsed)).1.entries u = none ∧
      ¬ u ∈ (update_all c fresh (.text parsed)).1.order) := by
  simp only [update_all, hn] at hok ⊢
  obtain ⟨h1, _h2, _h3, h4⟩ := uaCore_spec c fresh m0 es us hus hInv hok
  refine ⟨h1, h1, fun u hu hnus => ⟨h4 u hu hnus, ?_⟩⟩
  show ¬ u ∈ (uaCore c fresh m0 es).1.order
  rw [h1]
  exact hnus

/-- Witness for C1: a container holding `uidA`, updated from a serialized
payload containing only `uidB`; afterwards the order is exactly `[uidB]`
and `uidA` is gone from the entries. -/
theorem update_all_serialized_sync_witness :
    keysC (update_all cC3 ["f1"] (.text payloadB)).1 = [uidB] ∧
    alookup (update_all cC3 ["f1"] (.text payloadB)).1.entries uidA = none := by
  have h := update_all_serialized_sync cC3 ["f1"] payloadB
    [[("record_uid", .vstr uidB)]] false [uidB] rfl rfl
    ⟨by decide, by decide, by decide, by decide⟩ rfl
  exact ⟨h.1, (h.2.2 uidA (by decide) (by decide)).1⟩

/-- Claim C10: when a serialized `update_all` payload lists the same
`record_uid` in two or more entries, the container's `order` is set to the
payload's UID list verbatim including the repeats, so afterwards `keys()`
lists that UID multiple times while `entries` stores a single record for it
(its key list is duplicate-free, with membership exactly the payload's UID
set), and `len(container)` — the length of `order` — exceeds the number of
distinct contained records. -/
theorem update_all_duplicate_uid_order (c : Container) (fresh : List String)
    (parsed : Value) (es : List (List (String × Value))) (m0 : Bool)
    (us : List String)
    (hn : uaNormalize parsed = .ok (es, m0))
    (hus : extractUids es = .ok us)
    (hInv : Inv c)
    (hdup : ¬ us.Nodup)
    (hok : (update_all c fresh (.text parsed)).2.2 = none) :
    keysC (update_all c fresh (.text parsed)).1 = us ∧
    (akeys (update_all c fresh (.text parsed)).1.entries).Nodup ∧
    (∀ u, u ∈ akeys (update_all c fresh (.text parsed)).1.entries ↔ u ∈ us) ∧
    containerLen (update_all c fresh (.text parsed)).1 = us.length ∧
    (akeys (update_all c fresh (.text parsed)).1.entries).length <
      containerLen (update_all c fresh (.text parsed)).1 := by
  simp only [update_all, hn] at hok ⊢
  obtain ⟨h1, h2, h3, _h4⟩ := uaCore_spec c fresh m0 es us hus hInv hok
  have hlen : containerLen (uaCore c fresh m0 es).1 = us.length := by
    show (uaCore c fresh m0 es).1.order.length = us.length
    rw [h1]
  have hperm : (akeys (uaCore c fresh m0 es).1.entries).Perm us.dedup :=
    (List.perm_ext_iff_of_nodup h2 us.nodup_dedup).mpr
      (fun u => by rw [List.mem_dedup]; exact h3 u)
  have hlt : us.dedup.length < us.length := by
    rcases Nat.lt_or_ge us.dedup.length us.length with h | h
    · exact h
    · exfalso
      have hle := (List.dedup_sublist us).length_le
      have heq : us.dedup.length = us.length := Nat.le_antisymm hle h
      have hdd : us.dedup = us := (List.dedup_sublist us).eq_of_length heq
      exact hdup (hdd ▸ us.nodup_dedup)
  refine ⟨h1, h2, h3, hlen, ?_⟩
  rw [hperm.length_eq, hlen]
  exact hlt

/-- Witness for C10: updating a container from a serialized payload listing
`uidB` twice leaves `keys() = [uidB, uidB]`, `len == 2`, and a single
stored record. -/
theorem update_all_duplicate_uid_order_witness :
    keysC (update_all cC3 ["f1", "f2"] (.text payloadDup)).1 = [uidB, uidB] ∧
    containerLen (update_all cC3 ["f1", "f2"] (.text payloadDup)).1 = 2 ∧
    (akeys (update_all cC3 ["f1", "f2"] (.text payloadDup)).1.entries).length <
      containerLen (update_all cC3 ["f1", "f2"] (.text payloadDup)).1 := by
  have h := update_all_duplicate_uid_order cC3 ["f1", "f2"] payloadDup
    [[("record_uid", .vstr uidB)], [("record_uid", .vstr uidB)]] false
    [uidB, uidB] rfl rfl
    ⟨by decide, by decide, by decide, by decide⟩ (by decide) rfl
  exact ⟨h.1, h.2.2.2.1, h.2.2.2.2⟩

/-- Claim C3: the field-copy step is claimed to fire a modified event naming
exactly the keys whose incoming value differs from the value previously on
*that record*, and no event when nothing changed.  The source instead reads
`existing_value = getattr(self, key, None)` off the *container* (`self` in
`_populate_record` is the `RecordContainer`), so updating a record with
exactly its current value — here `count = 5` onto a record whose `count` is
already `5` — fires `ObjectModifiedEvent` naming `count` (plus the
consolidated container-level event), even though no copied value changed:
the record's `count` is `5` before and after.  This refutes the claim on the
code as written. -/
theorem populate_modified_event_fires_without_record_change :
    c3result.2.2.1 = [.modifiedRecord uidA ["count"], .modifiedContainer] ∧
    alookup rC3.attrs "count" = some (.vint 5) ∧
    c3result.2.1.map (fun r => alookup r.attrs "count") = some (some (.vint 5)) ∧
    c3result.2.2.2 = none :=
  ⟨rfl, rfl, rfl, rfl⟩

/-- Claim C4: homogeneous sequences of whitelisted scalars are claimed to
round-trip through `create`.  In `_type_whitelist_validation` the sequence
branch tests `v not in self.TYPE_WHITELIST` on each element *value* — i.e.
compares the element by `==` against the *type objects* of the whitelist —
so every sequence of actual scalars raises `ValueError` and is silently
skipped by `_populate_record`.  Here `create` copies the scalar `count` but
drops `tags = [1, 2]` entirely: the attribute is absent from the returned
record, refuting the round-trip claim for sequences (mapping values fare
worse: the mapping branch raises an uncaught `UnboundLocalError`, see
`typeWhitelistValidation`). -/
theorem create_drops_sequences_of_scalars :
    c4result.2.1.map (fun r => alookup r.attrs "tags") = some none ∧
    c4result.2.1.map (fun r => alookup r.attrs "count") = some (some (.vint 5)) ∧
    typeWhitelistValidation (.vlist [.vint 1, .vint 2]) =
      .error (.valueError "Unsupported sequence value type") ∧
    typeWhitelistValidation (.vdict [("a", .vint 1)]) =
      .error (.unboundLocalError "v") ∧
    c4result.2.2.2 = none :=
  ⟨rfl, rfl, rfl, rfl, rfl⟩

/-- Claim C5: for a plain (non-string) sequence of field-mappings,
`update_all` is claimed to raise an error iff some entry lacks a
`record_uid`, to complete with the usual semantics otherwise, and to leave
no partial mutation behind on failure.  In the source the local `uids` is
assigned only inside the `isinstance(data, basestring)` branch, so for every
plain sequence — even with all UIDs present — the statement
`remove_uids = set(self.keys()) - set(uids)` raises `UnboundLocalError`
*after* the per-entry updates already ran: here the call fails although the
single entry has a UID, and the partially mutated state (the new record is
in `entries` and `order`) is left behind.  This refutes both directions of
the claim. -/
theorem update_all_plain_sequence_always_raises :
    c5result.2.2 = some (.unboundLocalError "uids") ∧
    (alookup c5result.1.entries uidA).isSome = true ∧
    c5result.1.order = [uidA] :=
  ⟨rfl, rfl, rfl⟩

/-- Claim C6: `create(data)` is claimed to leave the container's own state
entirely unchanged.  It does leave `entries` and `order` untouched and skips
underscore keys, but the `record_uid` branch of `_populate_record` executes
`self.record_uid = str(value)` where `self` is the *container*: after
`create({'record_uid': uidA})` the container has gained a `record_uid`
attribute (`none` before, `some uidA` after), refuting the claim that no
attribute of the container is modified. -/
theorem create_sets_record_uid_on_container :
    emptyContainer.record_uid = none ∧
    c6result.1.record_uid = some uidA ∧
    c6result.1.entries = emptyContainer.entries ∧
    c6result.1.order = emptyContainer.order ∧
    c6result.2.2.2 = none :=
  ⟨rfl, rfl, rfl, rfl, rfl⟩

/-- Claim C7: the index policy is claimed to give a collection-of-text field
exactly one keyword index.  Because `isinstance(fieldinfo.fieldtype,
ICollection)` is always `False` in CPython 2 (see `isinstance_ICollection`),
the keyword branch of `field_index_types` is dead and a `List` of `TextLine`
falls to the `idxmap` default, receiving exactly one exact-match *field*
index named `field.IList.tags` and no keyword index — refuting the
collection clause.  The remaining clauses hold and are evaluated here too:
a single-line-text field gets exactly the field and text indexes, a
raw-bytes field gets none, and any other field gets one field index. -/
theorem collection_text_field_gets_field_index_not_keyword :
    fieldInfoIndexes (mkFieldInfo "tags" (.listOf .textLine)) = ["field.IList.tags"] ∧
    (fieldInfoIndexes (mkFieldInfo "tags" (.listOf .textLine))).all
      (fun n => !pyStartswith n "keyword") = true ∧
    fieldInfoIndexes (mkFieldInfo "title" .textLine) =
      ["field.ITextLine.title", "text.ITextLine.title"] ∧
    fieldInfoIndexes (mkFieldInfo "notes" .text) = ["text.IText.notes"] ∧
    fieldInfoIndexes (mkFieldInfo "photo" .bytes) = [] ∧
    fieldInfoIndexes (mkFieldInfo "num" .intField) = ["field.IInt.num"] :=
  ⟨rfl, rfl, rfl, rfl, rfl, rfl⟩

/-- Claim C8: `bind` with an `index_types` override requesting a text index
on a non-text field (or a keyword index on a non-collection field) is
claimed to raise a validation error before creating any index.  The body of
`bind` never reads its `index_types` (or `omit`) parameter — there is no
validation and no raise path — so the call completes normally and creates
the default field index for the integer field.  (The enclosing module also
fails to import under CPython: the class body evaluates the undefined
default `DEFAULT_GETUID`; the claim is settled against the documented
algorithm of `bind` itself.) -/
theorem bind_ignores_index_types_override :
    (∃ cat1, c8result = .ok cat1 ∧
      alookup cat1.indexer "field.IInt.num" = some "field" ∧
      (alookup cat1.supported "pkg.INum").isSome = true) ∧
    (∀ cat om idxtypes nm fls, ∃ cat1,
      bind cat om idxtypes nm fls = .ok cat1) :=
  ⟨⟨_, rfl, rfl, rfl⟩, fun _ _ _ _ _ => ⟨_, rfl⟩⟩

/-- Claim C9: `unbind(schema)` is claimed to remove the schema's
`SchemaInfo` from `supported` and, with `remove_indexes=True`, to delete the
schema's solely-owned indexes.  The source executes
`del(self.supported[name])` where `name` is an undefined variable, so every
`unbind` of a bound schema raises `NameError` before removing anything: the
`SchemaInfo` stays in `supported` and the solely-owned indexes stay in the
indexer.  (Even absent that, the `remove_indexes` branch iterates
`info.indexes` of a freshly adapted `SchemaInfo`, which is always the empty
list, so it could never delete an index.) -/
theorem unbind_raises_nameerror_and_removes_nothing :
    (alookup c9cat.supported "pkg.IS1").isSome = true ∧
    alookup c9cat.index_owners "field.ITextLine.title" = some ["pkg.IS1"] ∧
    c9result.2 = some (.nameError "name") ∧
    c9result.1 = c9cat ∧
    (mkSchemaInfo "pkg.IS1" [("title", FieldKind.textLine)]).indexes = [] :=
  ⟨rfl, rfl, rfl, rfl, rfl⟩

end UURecord
